import Mathlib

/-!
Verification of the ALB mackerel plugin's metric collection core
(`lib/aws-alb.go`, package `mpawsalb`) against its natural-language
specification.

Modelling conventions:
* `time.Time` values are modelled as `Int` seconds; `a.Before(b)` is `a < b`
  and `now.Add(-3 * time.Minute)` is `now - 180`.
* `float64` metric values are modelled as `Int`: the code never computes with
  them, it only copies them, and the Go zero value `0.0` becomes `0`.
* the Go map `map[string]float64` is modelled as the list of writes
  `List (String × Int)` in program order (a later pair with the same key is
  the later write, so lookup-from-the-right gives the Go map's value).
* the CloudWatch client is a black box, modelled as a function from the
  request value the code builds to either an error string or a datapoint
  list; `dp.ExtendedStatistics` (`map[string]*float64`) is an association
  list consulted with `List.lookup`.
* `strings.Split(tg, "/")[1]` is modelled with `List.getD 1 ""`; the Go code
  panics when the identifier has no separator, which is outside the modelled
  behaviour.
-/

namespace AwsAlb

/-- One CloudWatch dimension as built by the code for `GetMetricStatistics`
(both `Name` and `Value` are always set by the code). -/
structure Dimension where
  name : String
  value : String
  deriving DecidableEq, Repr

/-- A dimension filter as built for `ListMetrics`; the `TargetGroup` filter
carries no value. -/
structure DimensionFilter where
  name : String
  value : Option String
  deriving DecidableEq, Repr

/-- A dimension of a metric descriptor returned by `ListMetrics`; both fields
are pointers in the SDK, hence optional. -/
structure MetricDimension where
  name : Option String
  value : Option String
  deriving DecidableEq, Repr

/-- A metric descriptor returned by `ListMetrics`. -/
structure Metric where
  dimensions : List MetricDimension
  deriving DecidableEq, Repr

/-- A datapoint returned by `GetMetricStatistics`: a timestamp plus the
extended-statistics map. -/
structure Datapoint where
  timestamp : Int
  extendedStatistics : List (String × Int)
  deriving DecidableEq, Repr

/-- Reading `*dp.ExtendedStatistics[percentile]`; absent keys are outside the
modelled behaviour (the Go code would dereference nil) and default to `0`. -/
def Datapoint.extStat (dp : Datapoint) (percentile : String) : Int :=
  (dp.extendedStatistics.lookup percentile).getD 0

/-- The `GetMetricStatisticsInput` request value built by `getLastPercentile`. -/
structure GetMetricStatisticsInput where
  dimensions : List Dimension
  startTime : Int
  endTime : Int
  metricName : String
  period : Int
  extendedStatistics : List String
  nameSpace : String
  deriving DecidableEq, Repr

/-- The `ListMetricsInput` request value built by `prepare`. -/
structure ListMetricsInput where
  nameSpace : String
  metricName : String
  dimensionFilters : List DimensionFilter
  deriving DecidableEq, Repr

/-- The snapshot under construction: the sequence of `stat[key] = value`
writes in program order. -/
abbrev StatMap := List (String × Int)

/-- A write `stat[key] = value` to the Go map. -/
def statSet (stat : StatMap) (key : String) (value : Int) : StatMap :=
  stat ++ [(key, value)]

/-- The black-box CloudWatch `GetMetricStatistics` call. -/
abbrev CWApi := GetMetricStatisticsInput → Except String (List Datapoint)

/-- The plugin state; the `CloudWatch` client field is passed separately as a
`CWApi` function, and `Prefix`/`MetricKeyPrefix` (applied by the host
framework outside the core) is not needed by any claim. -/
structure Plugin where
  Region : String
  AccessKeyID : String
  SecretAccessKey : String
  LBName : String
  TargetGroups : List String

/-- The five extended statistics the code always requests and records, in
program order. -/
def percentiles : List String := ["p99", "p95", "p90", "p50", "p10"]

/-- The request built inside `getLastPercentile`: fixed namespace, metric
name, the trailing window `[now - 180, now]`, period 60, and the five
percentiles. -/
def statisticsInput (now : Int) (dimensions : List Dimension)
    (metricName : String) : GetMetricStatisticsInput :=
  { dimensions := dimensions
    startTime := now - 180
    endTime := now
    metricName := metricName
    period := 60
    extendedStatistics := percentiles
    nameSpace := "AWS/ApplicationELB" }

/-- The per-percentile scan of `getLastPercentile`: starting from
`latest, latestVal`, skip every datapoint whose timestamp is `Before`
(strictly less than) the running `latest`, otherwise take its timestamp and
its value for `percentile`.  The code starts the scan at
`latest := now, latestVal := 0`. -/
def latestScan (percentile : String) (latest latestVal : Int) :
    List Datapoint → Int × Int
  | [] => (latest, latestVal)
  | dp :: rest =>
    if dp.timestamp < latest then
      latestScan percentile latest latestVal rest
    else
      latestScan percentile dp.timestamp (dp.extStat percentile) rest

/-- `getLastPercentile`: issue the statistics query, fail on a query error or
an empty datapoint list, otherwise record, for each of the five percentiles,
the scanned value under `pre ++ percentile`. -/
def getLastPercentile (cw : CWApi) (now : Int) (stat : StatMap) (pre : String)
    (dimensions : List Dimension) (metricName : String) :
    Except String StatMap :=
  match cw (statisticsInput now dimensions metricName) with
  | .error err => .error err
  | .ok datapoints =>
    if datapoints.length = 0 then
      .error "fetched no datapoints"
    else
      .ok (percentiles.foldl
        (fun st percentile =>
          statSet st (pre ++ percentile) (latestScan percentile now 0 datapoints).2)
        stat)

/-- `strings.Split` for a one-character separator, on the character list of
the string: the list of (possibly empty) segments between occurrences of the
separator. -/
def splitChars (sep : Char) : List Char → List (List Char)
  | [] => [[]]
  | c :: rest =>
    match splitChars sep rest with
    | [] => [[]]
    | s :: ss => if c = sep then [] :: s :: ss else (c :: s) :: ss

/-- `strings.Split(tg, "/")[1]`: the middle path segment of a target-group
identifier `targetgroup/<name>/<hash>`. -/
def shortName (tg : String) : String :=
  ⟨(splitChars '/' tg.data).getD 1 []⟩

/-- The dimensions of the per-target-group statistics query:
`{TargetGroup = tg}` plus `{LoadBalancer = LBName}` when a name is
configured. -/
def tgDimensions (p : Plugin) (tg : String) : List Dimension :=
  [{ name := "TargetGroup", value := tg }] ++
    (if p.LBName = "" then [] else [{ name := "LoadBalancer", value := p.LBName }])

/-- The dimensions of the aggregate statistics query: empty, plus
`{LoadBalancer = LBName}` when a name is configured. -/
def lbDimensions (p : Plugin) : List Dimension :=
  [] ++ (if p.LBName = "" then [] else [{ name := "LoadBalancer", value := p.LBName }])

/-- The loop of `FetchMetrics` over the discovered target groups: each group
is queried with key prefix `"response_ext_per_group." + name[1] + "."` and
the first error aborts. -/
def fetchLoop (cw : CWApi) (now : Int) (p : Plugin) (stat : StatMap) :
    List String → Except String StatMap
  | [] => .ok stat
  | tg :: rest =>
    match getLastPercentile cw now stat
        ("response_ext_per_group." ++ shortName tg ++ ".") (tgDimensions p tg)
        "TargetResponseTime" with
    | .error err => .error err
    | .ok st => fetchLoop cw now p st rest

/-- `FetchMetrics`: query every discovered target group, then the aggregate
scope with an empty key prefix; the first error aborts and returns no map. -/
def fetchMetrics (cw : CWApi) (now : Int) (p : Plugin) :
    Except String StatMap :=
  match fetchLoop cw now p [] p.TargetGroups with
  | .error err => .error err
  | .ok stat => getLastPercentile cw now stat "" (lbDimensions p) "TargetResponseTime"

/-- The `ListMetrics` request built by `prepare`: the `TargetGroup` filter
(no value) plus, when configured, the `LoadBalancer` filter. -/
def listMetricsInput (lbName : String) : ListMetricsInput :=
  { nameSpace := "AWS/ApplicationELB"
    metricName := "TargetResponseTime"
    dimensionFilters :=
      [{ name := "TargetGroup", value := none }] ++
        (if lbName = "" then [] else [{ name := "LoadBalancer", value := some lbName }]) }

/-- The discovery filter of `prepare`: for each returned metric, skip it
unless it has exactly two dimensions; within a kept metric, append the value
of every dimension whose name pointer is nil or equals `"TargetGroup"` and
whose value pointer is set. -/
def targetGroupsOf (metrics : List Metric) : List String :=
  metrics.foldl
    (fun acc met =>
      if met.dimensions.length ≠ 2 then acc
      else
        met.dimensions.foldl
          (fun acc2 d =>
            if (match d.name with
                | some n => n != "TargetGroup"
                | none => false) then acc2
            else
              match d.value with
              | none => acc2
              | some v => acc2 ++ [v])
          acc)
    []

/-- The discovery filter as the specification words it: from the metrics with
exactly two dimensions, in catalog order and without deduplication, the
values of the dimensions named `"TargetGroup"`. -/
def targetGroupsSpec (metrics : List Metric) : List String :=
  (metrics.filter (fun met => met.dimensions.length = 2)).flatMap
    (fun met =>
      met.dimensions.filterMap
        (fun d => if d.name = some "TargetGroup" then d.value else none))

/-- The latest-point selection as the specification words it: among the
datapoints whose timestamp is not later than `now`, the one with the maximal
timestamp, a later list position winning ties; `none` when no datapoint
qualifies. -/
def latestSpecSelection (now : Int) (datapoints : List Datapoint)
    (percentile : String) : Option Int :=
  ((datapoints.filter (fun dp => dp.timestamp ≤ now)).foldl
    (fun best dp =>
      match best with
      | none => some dp
      | some b => if b.timestamp ≤ dp.timestamp then some dp else some b)
    none).map (fun dp => dp.extStat percentile)

/-- The full, per-target-group snapshot key: prefix, short name, percentile. -/
def groupKey (tg percentile : String) : String :=
  "response_ext_per_group." ++ shortName tg ++ "." ++ percentile

/-- The statistics request issued for one target group. -/
def tgQuery (now : Int) (p : Plugin) (tg : String) : GetMetricStatisticsInput :=
  statisticsInput now (tgDimensions p tg) "TargetResponseTime"

/-- The aggregate (load-balancer-scope) statistics request. -/
def aggQuery (now : Int) (p : Plugin) : GetMetricStatisticsInput :=
  statisticsInput now (lbDimensions p) "TargetResponseTime"

/-- The list of statistics requests one `FetchMetrics` run issues, in order:
one per discovered target group, then the aggregate request. -/
def queryInputs (now : Int) (p : Plugin) : List GetMetricStatisticsInput :=
  p.TargetGroups.map (tgQuery now p) ++ [aggQuery now p]

/-- The datapoints of a successful response, `[]` for an error. -/
def respDatapoints : Except String (List Datapoint) → List Datapoint
  | .ok dps => dps
  | .error _ => []

/-- The five writes one successful per-target-group query contributes. -/
def blockFor (cw : CWApi) (now : Int) (p : Plugin) (tg : String) : StatMap :=
  percentiles.map
    (fun q => (("response_ext_per_group." ++ shortName tg ++ ".") ++ q,
      (latestScan q now 0 (respDatapoints (cw (tgQuery now p tg)))).2))

/-- Whether a query response lets the collection continue: a successful
response with at least one datapoint. -/
def goodResp : Except String (List Datapoint) → Bool
  | .ok (_ :: _) => true
  | _ => false

/-- The error `getLastPercentile` returns for a failing response. -/
def failMsg : Except String (List Datapoint) → String
  | .error e => e
  | .ok _ => "fetched no datapoints"

/-- The running maximum the scan's `latest` variable tracks: the maximum of
the start value and all timestamps in the list. -/
def listMax (latest : Int) (l : List Datapoint) : Int :=
  l.foldl (fun acc dp => max acc dp.timestamp) latest

theorem le_listMax (l : List Datapoint) (a : Int) : a ≤ listMax a l := by
  induction l generalizing a with
  | nil => exact le_refl a
  | cons dp rest ih =>
    calc a ≤ max a dp.timestamp := le_max_left _ _
      _ ≤ listMax (max a dp.timestamp) rest := ih _
      _ = listMax a (dp :: rest) := rfl

theorem listMax_attained (l : List Datapoint) (a : Int) :
    listMax a l = a ∨ ∃ dp ∈ l, dp.timestamp = listMax a l := by
  induction l generalizing a with
  | nil => exact Or.inl rfl
  | cons dp rest ih =>
    have hstep : listMax a (dp :: rest) = listMax (max a dp.timestamp) rest := rfl
    rcases ih (max a dp.timestamp) with h | ⟨r, hr, hrts⟩
    · rcases max_cases a dp.timestamp with ⟨hm, _⟩ | ⟨hm, _⟩
      · exact Or.inl (by rw [hstep, h, hm])
      · exact Or.inr ⟨dp, List.mem_cons_self _ _, by rw [hstep, h, hm]⟩
    · exact Or.inr ⟨r, List.mem_cons_of_mem _ hr, by rw [hstep, hrts]⟩

/-- Characterisation of the per-percentile scan: the final `latest` is the
maximum of the start value and all timestamps, and the recorded value is the
value of the last datapoint attaining that maximum, or the start value when no
datapoint reaches the start `latest`. -/
theorem latestScan_eq (q : String) (l : List Datapoint) (latest val : Int) :
    latestScan q latest val l =
      (listMax latest l,
        match (l.filter (fun dp => dp.timestamp = listMax latest l)).getLast? with
        | some dp => dp.extStat q
        | none => val) := by
  induction l generalizing latest val with
  | nil => simp [latestScan, listMax]
  | cons dp rest ih =>
    by_cases h : dp.timestamp < latest
    · have hmax : max latest dp.timestamp = latest := max_eq_left h.le
      have hM : listMax latest (dp :: rest) = listMax latest rest := by
        show listMax (max latest dp.timestamp) rest = listMax latest rest
        rw [hmax]
      have hne : ¬ (dp.timestamp = listMax latest rest) :=
        fun hc => absurd (hc ▸ le_listMax rest latest) (not_le.mpr h)
      rw [latestScan, if_pos h, ih, hM,
        List.filter_cons_of_neg (by simpa using hne)]
    · push_neg at h
      have hmax : max latest dp.timestamp = dp.timestamp := max_eq_right h
      have hM : listMax latest (dp :: rest) = listMax dp.timestamp rest := by
        show listMax (max latest dp.timestamp) rest = listMax dp.timestamp rest
        rw [hmax]
      rw [latestScan, if_neg (not_lt.mpr h), ih, hM]
      by_cases hdp : dp.timestamp = listMax dp.timestamp rest
      · rw [List.filter_cons_of_pos (by simpa using hdp)]
        cases hfr : rest.filter (fun x => x.timestamp = listMax dp.timestamp rest) with
        | nil => simp [hfr]
        | cons x xs =>
          rcases Option.isSome_iff_exists.mp
            (List.getLast?_isSome.mpr (List.cons_ne_nil x xs)) with ⟨y, hy⟩
          simp [hfr, List.getLast?_cons_cons, hy]
      · rw [List.filter_cons_of_neg (by simpa using hdp)]
        rcases (listMax_attained rest dp.timestamp).resolve_left (Ne.symm hdp) with
          ⟨r, hr, hrts⟩
        have hmem : r ∈ rest.filter (fun x => x.timestamp = listMax dp.timestamp rest) :=
          List.mem_filter.mpr ⟨hr, by simpa using hrts⟩
        rcases Option.isSome_iff_exists.mp
          (List.getLast?_isSome.mpr (List.ne_nil_of_mem hmem)) with ⟨y, hy⟩
        simp [hy]

/-- Claim C1 (code bug in the source): at `now = 1000`, with the query
returning a single datapoint at timestamp `940` (inside the queried window,
not later than `now`) carrying value `5` for every percentile, the code
records `0` for every percentile — the scan starts its running `latest` at
`now` and skips every datapoint strictly before `now` — whereas the selection
the specification describes (the latest datapoint not later than `now`)
yields `5`. -/
theorem getLastPercentile_records_zero_for_past_datapoints :
    getLastPercentile
        (fun _ => .ok [⟨940, [("p99", 5), ("p95", 5), ("p90", 5), ("p50", 5), ("p10", 5)]⟩])
        1000 [] "" [] "TargetResponseTime"
      = .ok [("p99", 0), ("p95", 0), ("p90", 0), ("p50", 0), ("p10", 0)]
    ∧ latestSpecSelection 1000
        [⟨940, [("p99", 5), ("p95", 5), ("p90", 5), ("p50", 5), ("p10", 5)]⟩] "p99"
      = some 5 := by
  exact ⟨rfl, rfl⟩

/-- Claim C5 (counterexample): two distinct target-group identifiers that
share the middle path segment produce the same snapshot key, so the flat
namespace is not collision-free on distinct identifiers. -/
theorem groupKey_collision :
    ("targetgroup/api/1111111111111111" : String) ≠ "targetgroup/api/2222222222222222"
    ∧ groupKey "targetgroup/api/1111111111111111" "p99"
        = groupKey "targetgroup/api/2222222222222222" "p99" := by
  exact ⟨by decide, rfl⟩

/-- Claim C5 (amended): the snapshot keys of two discovered target groups are
distinct whenever their short names — the middle path segment of the
identifier — are distinct. -/
theorem groupKey_ne_of_shortName_ne (tg₁ tg₂ q : String)
    (h : shortName tg₁ ≠ shortName tg₂) : groupKey tg₁ q ≠ groupKey tg₂ q := by
  intro heq
  apply h
  have hd := congrArg String.data heq
  simp only [groupKey, String.data_append, List.append_assoc] at hd
  exact String.ext (List.append_cancel_right (List.append_cancel_left hd))

/-- Witness for the amended claim C5 at two concrete identifiers. -/
theorem groupKey_ne_of_shortName_ne_witness :
    groupKey "targetgroup/tg-a/111" "p99" ≠ groupKey "targetgroup/tg-b/222" "p99" :=
  groupKey_ne_of_shortName_ne "targetgroup/tg-a/111" "targetgroup/tg-b/222" "p99"
    (by decide)

/-- Claim C4 (counterexample): a metric with exactly two dimensions whose
first dimension has a nil name is treated by the discovery filter as if it
were the `TargetGroup` dimension: its value `"ghost"` is appended although no
dimension of the metric is named `TargetGroup`, so the result differs from
the specified extraction. -/
theorem targetGroupsOf_includes_unnamed_dimension :
    targetGroupsOf [⟨[⟨none, some "ghost"⟩, ⟨some "LoadBalancer", some "lb"⟩]⟩] = ["ghost"]
    ∧ targetGroupsSpec [⟨[⟨none, some "ghost"⟩, ⟨some "LoadBalancer", some "lb"⟩]⟩] = []
    ∧ targetGroupsOf [⟨[⟨none, some "ghost"⟩, ⟨some "LoadBalancer", some "lb"⟩]⟩]
        ≠ targetGroupsSpec [⟨[⟨none, some "ghost"⟩, ⟨some "LoadBalancer", some "lb"⟩]⟩] := by
  exact ⟨rfl, rfl, by decide⟩

theorem targetGroupsOf_inner_fold (dims : List MetricDimension) (acc : List String)
    (h : ∀ d ∈ dims, d.name ≠ none) :
    dims.foldl
      (fun acc2 d =>
        if (match d.name with
            | some n => n != "TargetGroup"
            | none => false) then acc2
        else
          match d.value with
          | none => acc2
          | some v => acc2 ++ [v])
      acc
    = acc ++ dims.filterMap
        (fun d => if d.name = some "TargetGroup" then d.value else none) := by
  induction dims generalizing acc with
  | nil => simp
  | cons d rest ih =>
    cases hn : d.name with
    | none => exact absurd hn (h d (List.mem_cons_self _ _))
    | some n =>
      have hrest : ∀ d ∈ rest, d.name ≠ none :=
        fun x hx => h x (List.mem_cons_of_mem _ hx)
      rw [List.foldl_cons, List.filterMap_cons]
      by_cases htg : n = "TargetGroup"
      · subst htg
        simp only [hn, bne_self_eq_false, Bool.false_eq_true, if_false, if_pos rfl]
        cases hv : d.value with
        | none => simpa using ih acc hrest
        | some v =>
          rw [ih (acc ++ [v]) hrest, List.append_assoc]
          rfl
      · simp only [hn, bne_iff_ne.mpr htg, if_true,
          if_neg (fun hc => htg (Option.some.inj hc))]
        exact ih acc hrest

theorem targetGroupsOf_outer_fold (metrics : List Metric) (acc : List String)
    (h : ∀ met ∈ metrics, ∀ d ∈ met.dimensions, d.name ≠ none) :
    metrics.foldl
      (fun acc met =>
        if met.dimensions.length ≠ 2 then acc
        else
          met.dimensions.foldl
            (fun acc2 d =>
              if (match d.name with
                  | some n => n != "TargetGroup"
                  | none => false) then acc2
              else
                match d.value with
                | none => acc2
                | some v => acc2 ++ [v])
            acc)
      acc
    = acc ++ targetGroupsSpec metrics := by
  induction metrics generalizing acc with
  | nil => simp [targetGroupsSpec]
  | cons met rest ih =>
    have hrest : ∀ m ∈ rest, ∀ d ∈ m.dimensions, d.name ≠ none :=
      fun m hm => h m (List.mem_cons_of_mem _ hm)
    by_cases hlen : met.dimensions.length = 2
    · have hspec : targetGroupsSpec (met :: rest)
          = met.dimensions.filterMap
              (fun d => if d.name = some "TargetGroup" then d.value else none)
            ++ targetGroupsSpec rest := by
        simp [targetGroupsSpec, hlen]
      rw [List.foldl_cons, if_neg (not_not_intro hlen),
        targetGroupsOf_inner_fold met.dimensions acc (h met (List.mem_cons_self _ _)),
        ih _ hrest, hspec, List.append_assoc]
    · have hspec : targetGroupsSpec (met :: rest) = targetGroupsSpec rest := by
        simp [targetGroupsSpec, hlen]
      rw [List.foldl_cons, if_pos hlen, ih acc hrest, hspec]

/-- Claim C4 (amended): provided every dimension of every returned metric
carries a name, discovery appends exactly the values of the dimensions named
`TargetGroup` of the metrics with exactly two dimensions, in catalog order
and without deduplication — a dimension whose name is absent is additionally
treated by the code as if it were the `TargetGroup` dimension. -/
theorem targetGroupsOf_eq_spec_of_named (metrics : List Metric)
    (h : ∀ met ∈ metrics, ∀ d ∈ met.dimensions, d.name ≠ none) :
    targetGroupsOf metrics = targetGroupsSpec metrics := by
  have := targetGroupsOf_outer_fold metrics [] h
  simpa [targetGroupsOf] using this

theorem getLastPercentile_congr (cw cw' : CWApi) (now : Int) (stat : StatMap)
    (pre : String) (dims : List Dimension) (mn : String)
    (h : cw (statisticsInput now dims mn) = cw' (statisticsInput now dims mn)) :
    getLastPercentile cw now stat pre dims mn
      = getLastPercentile cw' now stat pre dims mn := by
  unfold getLastPercentile
  rw [h]

theorem fetchLoop_congr (cw cw' : CWApi) (now : Int) (p : Plugin)
    (tgs : List String) (stat : StatMap)
    (h : ∀ tg ∈ tgs, cw (tgQuery now p tg) = cw' (tgQuery now p tg)) :
    fetchLoop cw now p stat tgs = fetchLoop cw' now p stat tgs := by
  induction tgs generalizing stat with
  | nil => rfl
  | cons tg rest ih =>
    rw [fetchLoop, fetchLoop,
      getLastPercentile_congr cw cw' now stat _ _ _ (h tg (List.mem_cons_self _ _))]
    cases getLastPercentile cw' now stat
        ("response_ext_per_group." ++ shortName tg ++ ".") (tgDimensions p tg)
        "TargetResponseTime" with
    | error e => rfl
    | ok st => exact ih st (fun x hx => h x (List.mem_cons_of_mem _ hx))

/-- Claim C8: every statistics request the collector issues carries exactly
the extended-statistics set `{p99, p95, p90, p50, p10}` for the
`TargetResponseTime` metric over `[now - 180, now]` with period 60; moreover
`FetchMetrics` consults the API only on the requests listed in
`queryInputs`. -/
theorem queryInputs_shape (now : Int) (p : Plugin) :
    (∀ q ∈ queryInputs now p,
      q.metricName = "TargetResponseTime"
      ∧ q.extendedStatistics = ["p99", "p95", "p90", "p50", "p10"]
      ∧ q.startTime = now - 180 ∧ q.endTime = now ∧ q.period = 60)
    ∧ ∀ cw cw' : CWApi, (∀ q ∈ queryInputs now p, cw q = cw' q) →
        fetchMetrics cw now p = fetchMetrics cw' now p := by
  constructor
  · intro q hq
    rcases List.mem_append.mp hq with hq | hq
    · rcases List.mem_map.mp hq with ⟨tg, _, rfl⟩
      exact ⟨rfl, rfl, rfl, rfl, rfl⟩
    · rw [List.mem_singleton.mp hq]
      exact ⟨rfl, rfl, rfl, rfl, rfl⟩
  · intro cw cw' hagree
    unfold fetchMetrics
    rw [fetchLoop_congr cw cw' now p p.TargetGroups []
      (fun tg htg => hagree _ (List.mem_append_left _ (List.mem_map_of_mem _ htg)))]
    cases fetchLoop cw' now p [] p.TargetGroups with
    | error e => rfl
    | ok stat =>
      exact getLastPercentile_congr cw cw' now stat _ _ _
        (hagree _ (List.mem_append_right _ (List.mem_singleton.mpr rfl)))

/-- Witness for claim C8 at a concrete plugin and time. -/
theorem queryInputs_shape_witness :
    (aggQuery 1000 ⟨"", "", "", "", []⟩).endTime = 1000 :=
  ((queryInputs_shape 1000 ⟨"", "", "", "", []⟩).1
    (aggQuery 1000 ⟨"", "", "", "", []⟩) (by decide)).2.2.2.1

/-- Claim C6: when no load-balancer name is configured, neither the
discovery catalog request nor any statistics request carries a dimension (or
dimension filter) named `LoadBalancer`; when a name is configured, the
discovery request carries the `LoadBalancer` filter with that value and every
statistics request carries the `LoadBalancer` dimension with that value. -/
theorem loadBalancer_dimension_iff_configured (now : Int) (p : Plugin) :
    (p.LBName = "" →
      (∀ d ∈ (listMetricsInput p.LBName).dimensionFilters, d.name ≠ "LoadBalancer")
      ∧ ∀ q ∈ queryInputs now p, ∀ d ∈ q.dimensions, d.name ≠ "LoadBalancer")
    ∧ (p.LBName ≠ "" →
      ({ name := "LoadBalancer", value := some p.LBName } : DimensionFilter)
          ∈ (listMetricsInput p.LBName).dimensionFilters
      ∧ ∀ q ∈ queryInputs now p,
          ({ name := "LoadBalancer", value := p.LBName } : Dimension) ∈ q.dimensions) := by
  constructor
  · intro hlb
    constructor
    · intro d hd
      simp only [listMetricsInput, hlb, if_pos rfl, List.append_nil] at hd
      rw [List.mem_singleton.mp hd]
      decide
    · intro q hq d hd
      rcases List.mem_append.mp hq with hq | hq
      · rcases List.mem_map.mp hq with ⟨tg, _, rfl⟩
        simp only [tgQuery, statisticsInput, tgDimensions, hlb, if_pos rfl,
          List.append_nil] at hd
        rw [List.mem_singleton.mp hd]
        simp
      · rw [List.mem_singleton.mp hq] at hd
        simp only [aggQuery, statisticsInput, lbDimensions, hlb, if_pos rfl,
          List.append_nil] at hd
        exact absurd hd (List.not_mem_nil d)
  · intro hlb
    constructor
    · simp only [listMetricsInput, if_neg hlb]
      exact List.mem_append_right _ (List.mem_singleton.mpr rfl)
    · intro q hq
      rcases List.mem_append.mp hq with hq | hq
      · rcases List.mem_map.mp hq with ⟨tg, _, rfl⟩
        simp only [tgQuery, statisticsInput, tgDimensions, if_neg hlb]
        exact List.mem_append_right _ (List.mem_singleton.mpr rfl)
      · rw [List.mem_singleton.mp hq]
        simp only [aggQuery, statisticsInput, lbDimensions, if_neg hlb]
        exact List.mem_append_right _ (List.mem_singleton.mpr rfl)

/-- Witness for claim C6: with a configured name the aggregate request
carries the `LoadBalancer` dimension. -/
theorem loadBalancer_dimension_iff_configured_witness :
    ({ name := "LoadBalancer", value := "app/my-lb/abc" } : Dimension)
      ∈ (aggQuery 7 ⟨"", "", "", "app/my-lb/abc", []⟩).dimensions :=
  ((loadBalancer_dimension_iff_configured 7 ⟨"", "", "", "app/my-lb/abc", []⟩).2
    (by decide)).2 (aggQuery 7 ⟨"", "", "", "app/my-lb/abc", []⟩) (by decide)

/-- Witness for the amended claim C4 at a concrete catalog response. -/
theorem targetGroupsOf_eq_spec_of_named_witness :
    targetGroupsOf
        [⟨[⟨some "TargetGroup", some "targetgroup/tg-a/111"⟩,
           ⟨some "LoadBalancer", some "app/my-lb/abc"⟩]⟩,
         ⟨[⟨some "TargetGroup", some "targetgroup/tg-b/222"⟩]⟩]
      = targetGroupsSpec
        [⟨[⟨some "TargetGroup", some "targetgroup/tg-a/111"⟩,
           ⟨some "LoadBalancer", some "app/my-lb/abc"⟩]⟩,
         ⟨[⟨some "TargetGroup", some "targetgroup/tg-b/222"⟩]⟩] :=
  targetGroupsOf_eq_spec_of_named _ (by decide)

theorem foldl_statSet (ps : List String) (stat : StatMap) (pre : String)
    (f : String → Int) :
    ps.foldl (fun st q => statSet st (pre ++ q) (f q)) stat
      = stat ++ ps.map (fun q => (pre ++ q, f q)) := by
  induction ps generalizing stat with
  | nil => simp
  | cons q rest ih =>
    rw [List.foldl_cons, List.map_cons, ih, statSet, List.append_assoc]
    rfl

theorem getLastPercentile_good (cw : CWApi) (now : Int) (stat : StatMap)
    (pre : String) (dims : List Dimension) (mn : String)
    (h : goodResp (cw (statisticsInput now dims mn)) = true) :
    getLastPercentile cw now stat pre dims mn
      = .ok (stat ++ percentiles.map
          (fun q => (pre ++ q,
            (latestScan q now 0 (respDatapoints (cw (statisticsInput now dims mn)))).2))) := by
  cases hcw : cw (statisticsInput now dims mn) with
  | error e => rw [hcw] at h; exact absurd h (by simp [goodResp])
  | ok dps =>
    cases dps with
    | nil => rw [hcw] at h; exact absurd h (by simp [goodResp])
    | cons d ds =>
      simp only [getLastPercentile, hcw, respDatapoints]
      rw [if_neg (by simp)]
      exact congrArg Except.ok
        (foldl_statSet percentiles stat pre (fun q => (latestScan q now 0 (d :: ds)).2))

theorem getLastPercentile_bad (cw : CWApi) (now : Int) (stat : StatMap)
    (pre : String) (dims : List Dimension) (mn : String)
    (h : goodResp (cw (statisticsInput now dims mn)) = false) :
    getLastPercentile cw now stat pre dims mn
      = .error (failMsg (cw (statisticsInput now dims mn))) := by
  cases hcw : cw (statisticsInput now dims mn) with
  | error e => simp only [getLastPercentile, hcw, failMsg]
  | ok dps =>
    cases dps with
    | nil => simp only [getLastPercentile, hcw, failMsg]; rfl
    | cons d ds => rw [hcw] at h; exact absurd h (by simp [goodResp])

theorem getLastPercentile_ok_inv (cw : CWApi) (now : Int) (stat : StatMap)
    (pre : String) (dims : List Dimension) (mn : String) (st : StatMap)
    (h : getLastPercentile cw now stat pre dims mn = .ok st) :
    goodResp (cw (statisticsInput now dims mn)) = true
    ∧ st = stat ++ percentiles.map
        (fun q => (pre ++ q,
          (latestScan q now 0 (respDatapoints (cw (statisticsInput now dims mn)))).2)) := by
  cases hg : goodResp (cw (statisticsInput now dims mn)) with
  | false => rw [getLastPercentile_bad cw now stat pre dims mn hg] at h; cases h
  | true =>
    rw [getLastPercentile_good cw now stat pre dims mn hg] at h
    exact ⟨rfl, (Except.ok.inj h).symm⟩

theorem fetchLoop_good (cw : CWApi) (now : Int) (p : Plugin) (tgs : List String)
    (stat : StatMap) (h : ∀ tg ∈ tgs, goodResp (cw (tgQuery now p tg)) = true) :
    fetchLoop cw now p stat tgs = .ok (stat ++ tgs.flatMap (blockFor cw now p)) := by
  induction tgs generalizing stat with
  | nil => simp [fetchLoop]
  | cons tg rest ih =>
    rw [fetchLoop, getLastPercentile_good cw now stat _ _ _
        (h tg (List.mem_cons_self _ _)),
      List.flatMap_cons, ← List.append_assoc]
    exact ih _ (fun x hx => h x (List.mem_cons_of_mem _ hx))

theorem fetchLoop_ok_inv (cw : CWApi) (now : Int) (p : Plugin) (tgs : List String) :
    ∀ stat st, fetchLoop cw now p stat tgs = .ok st →
      (∀ tg ∈ tgs, goodResp (cw (tgQuery now p tg)) = true)
      ∧ st = stat ++ tgs.flatMap (blockFor cw now p) := by
  induction tgs with
  | nil =>
    intro stat st h
    exact ⟨fun tg htg => absurd htg (List.not_mem_nil tg),
      by simpa [fetchLoop] using (Except.ok.inj h).symm⟩
  | cons tg rest ih =>
    intro stat st h
    rw [fetchLoop] at h
    cases hg : getLastPercentile cw now stat
        ("response_ext_per_group." ++ shortName tg ++ ".") (tgDimensions p tg)
        "TargetResponseTime" with
    | error e => rw [hg] at h; cases h
    | ok st₁ =>
      rw [hg] at h
      obtain ⟨hgood, hst₁⟩ := getLastPercentile_ok_inv cw now stat _ _ _ st₁ hg
      obtain ⟨hrest, hst⟩ := ih st₁ st h
      refine ⟨fun x hx => ?_, ?_⟩
      · rcases List.mem_cons.mp hx with rfl | hx
        · exact hgood
        · exact hrest x hx
      · rw [hst, hst₁, List.flatMap_cons, List.append_assoc]
        rfl

/-- Claim C3: the keys of a successful snapshot are, in write order, the five
per-group percentile keys for each discovered target group followed by the
five plain percentile keys of the load-balancer scope — exactly five keys per
scope and nothing else. -/
theorem fetchMetrics_ok_keys (cw : CWApi) (now : Int) (p : Plugin) (m : StatMap)
    (h : fetchMetrics cw now p = .ok m) :
    m.map Prod.fst
      = p.TargetGroups.flatMap (fun tg => percentiles.map (fun q => groupKey tg q))
        ++ percentiles := by
  unfold fetchMetrics at h
  cases hl : fetchLoop cw now p [] p.TargetGroups with
  | error e => rw [hl] at h; cases h
  | ok stat =>
    rw [hl] at h
    obtain ⟨_, hstat⟩ := fetchLoop_ok_inv cw now p p.TargetGroups [] stat hl
    obtain ⟨_, hm⟩ := getLastPercentile_ok_inv cw now stat _ _ _ m h
    rw [hm, hstat, List.nil_append, List.map_append, List.map_flatMap]
    have hblock : ∀ tg : String,
        (blockFor cw now p tg).map Prod.fst
          = percentiles.map (fun q => groupKey tg q) := by
      intro tg
      rw [blockFor, List.map_map]
      rfl
    simp only [hblock]
    rfl

/-- Witness for claim C3 at a concrete run: one discovered target group, a
constant API response. -/
theorem fetchMetrics_ok_keys_witness :
    ([("response_ext_per_group.tg-a.p99", 0), ("response_ext_per_group.tg-a.p95", 0),
      ("response_ext_per_group.tg-a.p90", 0), ("response_ext_per_group.tg-a.p50", 0),
      ("response_ext_per_group.tg-a.p10", 0), ("p99", 0), ("p95", 0), ("p90", 0),
      ("p50", 0), ("p10", 0)] : StatMap).map Prod.fst
      = (⟨"", "", "", "", ["targetgroup/tg-a/111"]⟩ : Plugin).TargetGroups.flatMap
          (fun tg => percentiles.map (fun q => groupKey tg q))
        ++ percentiles :=
  fetchMetrics_ok_keys
    (fun _ => .ok [⟨940, [("p99", 5), ("p95", 5), ("p90", 5), ("p50", 5), ("p10", 5)]⟩])
    1000 ⟨"", "", "", "", ["targetgroup/tg-a/111"]⟩ _ rfl

theorem fetchLoop_first_bad (cw : CWApi) (now : Int) (p : Plugin)
    (pre : List String) (t : String) (post : List String)
    (hbad : goodResp (cw (tgQuery now p t)) = false) :
    ∀ stat, (∀ tg ∈ pre, goodResp (cw (tgQuery now p tg)) = true) →
      fetchLoop cw now p stat (pre ++ t :: post)
        = .error (failMsg (cw (tgQuery now p t))) := by
  induction pre with
  | nil =>
    intro stat _
    rw [List.nil_append, fetchLoop, getLastPercentile_bad cw now stat _ _ _ hbad]
    rfl
  | cons g rest ih =>
    intro stat hpre
    rw [List.cons_append, fetchLoop, getLastPercentile_good cw now stat _ _ _
      (hpre g (List.mem_cons_self _ _))]
    exact ih _ (fun x hx => hpre x (List.mem_cons_of_mem _ hx))

/-- Claim C2: the first statistics query of a collection cycle that returns
an error or zero datapoints aborts the whole cycle: `FetchMetrics` returns
`.error` (hence no mapping at all and no keys from any query), whether the
failing query is a per-target-group query — all earlier group queries having
succeeded — or the final aggregate query; a zero-datapoint success is turned
into the error `"fetched no datapoints"`, never into a default value. -/
theorem fetchMetrics_first_failure_aborts (cw : CWApi) (now : Int) (p : Plugin) :
    (∀ (pre : List String) (t : String) (post : List String),
      p.TargetGroups = pre ++ t :: post →
      (∀ tg ∈ pre, goodResp (cw (tgQuery now p tg)) = true) →
      goodResp (cw (tgQuery now p t)) = false →
      fetchMetrics cw now p = .error (failMsg (cw (tgQuery now p t))))
    ∧ ((∀ tg ∈ p.TargetGroups, goodResp (cw (tgQuery now p tg)) = true) →
      goodResp (cw (aggQuery now p)) = false →
      fetchMetrics cw now p = .error (failMsg (cw (aggQuery now p)))) := by
  constructor
  · intro pre t post hsplit hpre hbad
    unfold fetchMetrics
    rw [hsplit, fetchLoop_first_bad cw now p pre t post hbad [] hpre]
  · intro hgood hbad
    unfold fetchMetrics
    rw [fetchLoop_good cw now p p.TargetGroups [] hgood]
    exact getLastPercentile_bad cw now _ _ _ _ hbad

/-- Witness for claim C2: with an empty target-group set and an API that
returns zero datapoints, the cycle fails with the no-data error. -/
theorem fetchMetrics_first_failure_aborts_witness :
    fetchMetrics (fun _ => .ok []) 0 ⟨"", "", "", "", []⟩
      = .error "fetched no datapoints" :=
  (fetchMetrics_first_failure_aborts (fun _ => .ok []) 0 ⟨"", "", "", "", []⟩).2
    (fun tg htg => absurd htg (List.not_mem_nil tg)) rfl

theorem listMax_perm (a : Int) (l₁ l₂ : List Datapoint) (h : l₁.Perm l₂) :
    listMax a l₁ = listMax a l₂ := by
  induction h generalizing a with
  | nil => rfl
  | cons x _ ih => exact ih (max a x.timestamp)
  | swap x y l =>
    show listMax (max (max a y.timestamp) x.timestamp) l
      = listMax (max (max a x.timestamp) y.timestamp) l
    rw [sup_right_comm]
  | trans _ _ ih₁ ih₂ => exact (ih₁ a).trans (ih₂ a)

/-- Claim C7: the recorded value is invariant under any reordering of the
datapoint list when at most one datapoint attains the maximal qualifying
timestamp of the scan; and in general the last datapoint, in the list's
native order, attaining that maximal timestamp supplies the recorded
value. -/
theorem latestScan_perm_invariant (q : String) (now : Int) (l₁ l₂ : List Datapoint)
    (hperm : l₁.Perm l₂) :
    ((l₁.filter (fun dp => dp.timestamp = listMax now l₁)).length ≤ 1 →
      (latestScan q now 0 l₁).2 = (latestScan q now 0 l₂).2)
    ∧ ∀ dp, (l₁.filter (fun dp => dp.timestamp = listMax now l₁)).getLast? = some dp →
        (latestScan q now 0 l₁).2 = dp.extStat q := by
  have hM : listMax now l₁ = listMax now l₂ := listMax_perm now l₁ l₂ hperm
  constructor
  · intro hlen
    rw [latestScan_eq q l₁ now 0, latestScan_eq q l₂ now 0, ← hM]
    have hp : (l₁.filter (fun dp => dp.timestamp = listMax now l₁)).Perm
        (l₂.filter (fun dp => dp.timestamp = listMax now l₁)) :=
      hperm.filter _
    rcases Nat.le_one_iff_eq_zero_or_eq_one.mp hlen with h0 | h1
    · have h₁ : l₁.filter (fun dp => dp.timestamp = listMax now l₁) = [] :=
        List.length_eq_zero.mp h0
      have hp0 : ([] : List Datapoint).Perm
          (l₂.filter (fun dp => dp.timestamp = listMax now l₁)) := h₁ ▸ hp
      have h₂ := List.Perm.eq_nil hp0.symm
      rw [h₁, h₂]
    · obtain ⟨a, ha⟩ := List.length_eq_one.mp h1
      have hp1 : ([a] : List Datapoint).Perm
          (l₂.filter (fun dp => dp.timestamp = listMax now l₁)) := ha ▸ hp
      have h₂ := List.perm_singleton.mp hp1.symm
      rw [ha, h₂]
  · intro dp hdp
    rw [latestScan_eq q l₁ now 0]
    simp [hdp]

/-- Witness for claim C7 at a concrete pair of reordered datapoint lists. -/
theorem latestScan_perm_invariant_witness :
    (latestScan "p99" 0 0 [⟨1, [("p99", 7)]⟩, ⟨2, [("p99", 9)]⟩]).2
      = (latestScan "p99" 0 0 [⟨2, [("p99", 9)]⟩, ⟨1, [("p99", 7)]⟩]).2
    ∧ (latestScan "p99" 0 0 [⟨1, [("p99", 7)]⟩, ⟨2, [("p99", 9)]⟩]).2
      = Datapoint.extStat ⟨2, [("p99", 9)]⟩ "p99" :=
  ⟨(latestScan_perm_invariant "p99" 0 [⟨1, [("p99", 7)]⟩, ⟨2, [("p99", 9)]⟩]
      [⟨2, [("p99", 9)]⟩, ⟨1, [("p99", 7)]⟩] (by decide)).1 (by decide),
   (latestScan_perm_invariant "p99" 0 [⟨1, [("p99", 7)]⟩, ⟨2, [("p99", 9)]⟩]
      [⟨2, [("p99", 9)]⟩, ⟨1, [("p99", 7)]⟩] (by decide)).2 ⟨2, [("p99", 9)]⟩ (by decide)⟩

end AwsAlb
